import Mathlib

/-!
Verification of the go-ringqueue repository: a fixed-capacity circular
FIFO buffer (`unsafeRQ`, from safe.go / queue.go) and the thread-safe
coordinator wrapping it (`safeRQ`, from safe.go).

The embedding is a shallow one: Go methods that mutate the receiver are
modelled as pure functions from the old state to the returned values
together with the new state.  Go run-time panics (out-of-range slice
indexing, integer division by zero) are modelled with `Except PanicKind`;
Go `error` return values are modelled with `Option GoError` kept in-band
next to the other return values, exactly as in the source, so that "the
state is unchanged on error" is a provable statement rather than a
modelling artefact.
-/

set_option maxHeartbeats 1600000

deriving instance DecidableEq for Except

namespace RingQueue

/-- Push policy on a full buffer (queue.go / interface.go). -/
inductive WhenFull where
  | WhenFullError
  | WhenFullOverwrite
deriving DecidableEq, Repr

/-- Pop policy on an empty buffer (interface.go, concurrent variant). -/
inductive WhenEmpty where
  | WhenEmptyError
  | WhenEmptyBlock
deriving DecidableEq, Repr

/-- The error values of the package (interface.go), plus
`context.DeadlineExceeded` which the coordinator's pop can return. -/
inductive GoError where
  | ErrFullQueue
  | ErrEmptyQueue
  | ErrClosed
  | ErrUnsupported
  | DeadlineExceeded
deriving DecidableEq, Repr

/-- Go run-time panic kinds reachable in this code: slice index out of
range (`r.data[i]` with `i >= len(r.data)`) and integer modulo by zero
(`x % len(r.data)` with an empty slice). -/
inductive PanicKind where
  | indexOutOfRange
  | modByZero
deriving DecidableEq, Repr

/-- The core ring buffer state (`unsafeRQ` in safe.go).  `end` is a Lean
keyword, so the field is written `«end»`.  The `sync.Once` guarding
`Close` is in lockstep with `closed` (the only `Do` site sets `closed`),
so `closed` itself serves as the once-guard.  `hasOnClose` records
whether an `onClose` callback was supplied; `finalizerCalls` and
`finalizerArgs` are ghost instrumentation recording how often and with
which arguments the callback was invoked — they affect no behaviour. -/
structure unsafeRQ (T : Type) where
  data : List T
  isFull : Bool
  start : Nat
  «end» : Nat
  whenFull : WhenFull
  closed : Bool
  hasOnClose : Bool
  finalizerCalls : Nat
  finalizerArgs : Option (List T × Nat × Nat × Bool)
deriving DecidableEq, Repr

/-- `newUnsafe` (safe.go): always succeeds, any capacity accepted; the
backing store is `make([]T, capacity)`, i.e. `capacity` zero values. -/
def newUnsafe (T : Type) [Inhabited T] (capacity : Nat) (whenFull : WhenFull)
    (hasOnClose : Bool) : unsafeRQ T × Option GoError :=
  ({ data := List.replicate capacity default
     isFull := false
     start := 0
     «end» := 0
     whenFull := whenFull
     closed := false
     hasOnClose := hasOnClose
     finalizerCalls := 0
     finalizerArgs := none }, none)

namespace unsafeRQ

variable {T : Type}

/-- `unsafeRQ.Len` (safe.go lines 432-441).  Note the source computes
`len(r.data) - res` (not `+ res`) when `res < 0`. -/
def Len (r : unsafeRQ T) : Int :=
  if r.closed then 0
  else
    let res : Int := (r.«end» : Int) - (r.start : Int)
    if res < 0 ∨ (res = 0 ∧ r.isFull = true) then (r.data.length : Int) - res
    else res

/-- `unsafeRQ.Cap` (safe.go). -/
def Cap (r : unsafeRQ T) : Int :=
  if r.closed then 0 else (r.data.length : Int)

/-- `unsafeRQ.IsFull` (safe.go). -/
def IsFull (r : unsafeRQ T) : Bool :=
  if r.closed then false else r.isFull

/-- `unsafeRQ.Push` (safe.go lines 382-403).  Returns
`(newLen, err, newState)`; Go's `switch` on `whenFull` has a `default`
arm that is unreachable for the two declared policy constants.  The
store `r.data[r.end] = elem` is evaluated before the modulo
`(r.end+1) % len(r.data)`, so an out-of-range `end` panics with an index
error before a zero capacity could panic with a modulo error. -/
def Push (r : unsafeRQ T) (elem : T) :
    Except PanicKind (Int × Option GoError × unsafeRQ T) :=
  if r.closed then .ok (0, some .ErrClosed, r)
  else if r.isFull = true ∧ r.whenFull = .WhenFullError then
    .ok (0, some .ErrFullQueue, r)
  else
    if r.«end» < r.data.length then
      let data' := r.data.set r.«end» elem
      if r.data.length = 0 then .error .modByZero
      else
        let end' := (r.«end» + 1) % r.data.length
        let r' := { r with data := data', «end» := end',
                           isFull := decide (end' = r.start) }
        .ok (Len r', none, r')
    else .error .indexOutOfRange

/-- `unsafeRQ.Pop` (safe.go lines 405-419).  The element slot of the
result is `none` exactly on the error paths, where Go returns the zero
value of `T`. -/
def Pop (r : unsafeRQ T) :
    Except PanicKind (Option T × Int × Option GoError × unsafeRQ T) :=
  if r.closed then .ok (none, 0, some .ErrClosed, r)
  else if r.isFull = false ∧ r.start = r.«end» then
    .ok (none, 0, some .ErrEmptyQueue, r)
  else
    match r.data[r.start]? with
    | none => .error .indexOutOfRange
    | some res =>
      if r.data.length = 0 then .error .modByZero
      else
        let r' := { r with start := (r.start + 1) % r.data.length,
                           isFull := false }
        .ok (some res, Len r', none, r')

/-- `unsafeRQ.Peek` (safe.go lines 421-430): same emptiness check as
`Pop`, no mutation. -/
def Peek (r : unsafeRQ T) :
    Except PanicKind (Option T × Int × Option GoError × unsafeRQ T) :=
  if r.closed then .ok (none, 0, some .ErrClosed, r)
  else if r.isFull = false ∧ r.start = r.«end» then
    .ok (none, 0, some .ErrEmptyQueue, r)
  else
    match r.data[r.start]? with
    | none => .error .indexOutOfRange
    | some res => .ok (some res, Len r, none, r)

/-- `unsafeRQ.SetPopDeadline` (safe.go lines 456-458): always
unsupported on the core buffer. -/
def SetPopDeadline (r : unsafeRQ T) (_t : Int) : Option GoError × unsafeRQ T :=
  (some .ErrUnsupported, r)

/-- `unsafeRQ.Close` (safe.go lines 460-469): the `sync.Once` body sets
`closed`, invokes the optional finalizer with the final raw state, and
releases the backing store (`r.data = nil`); always returns `nil`. -/
def Close (r : unsafeRQ T) : Option GoError × unsafeRQ T :=
  if r.closed then (none, r)
  else
    (none, { r with closed := true
                    finalizerCalls :=
                      r.finalizerCalls + (if r.hasOnClose then 1 else 0)
                    finalizerArgs :=
                      if r.hasOnClose then
                        some (r.data, r.start, r.«end», r.isFull)
                      else r.finalizerArgs
                    data := [] })

end unsafeRQ

/-- Outcome of the coordinator's `Pop`: either a returned triple
`(elem, newLen, err)` or suspension with no terminal signal pending
(a sequential rendering of Go's blocked `select`). -/
inductive PopOutcome (T : Type) where
  | ret (elem : Option T) (newLen : Int) (err : Option GoError)
  | blocksForever
deriving DecidableEq, Repr

/-- The concurrent coordinator state (`safeRQ` in safe.go, the
pion-deadline variant cited by the claims).  `closedCh` is whether the
`closed` channel has been closed; `availableSet` is whether the
single-slot `available` channel holds a value; `deadline` is the
currently armed deadline instant and `deadlineFired` whether
`deadline.Done()` is ready (driven by the real-time clock, which the
sequential model leaves as an explicit state component). -/
structure safeRQ (T : Type) where
  rq : unsafeRQ T
  closedCh : Bool
  whenEmpty : WhenEmpty
  availableSet : Bool
  deadline : Int
  deadlineFired : Bool
deriving DecidableEq, Repr

/-- `NewSafe` (safe.go lines 204-219): validates `whenEmpty` (both
declared constants pass), fresh signalling state.  The underlying
buffer comes from `newUnsafe`. -/
def NewSafe (T : Type) [Inhabited T] (capacity : Nat) (whenFull : WhenFull)
    (whenEmpty : WhenEmpty) (hasOnClose : Bool) : safeRQ T × Option GoError :=
  ({ rq := (newUnsafe T capacity whenFull hasOnClose).1
     closedCh := false
     whenEmpty := whenEmpty
     availableSet := false
     deadline := 0
     deadlineFired := false }, none)

namespace safeRQ

variable {T : Type}

/-- `safeRQ.SetPopDeadline` (safe.go lines 234-240): unsupported unless
the empty-policy is Block; otherwise arms the deadline and succeeds. -/
def SetPopDeadline (s : safeRQ T) (t : Int) : Option GoError × safeRQ T :=
  if s.whenEmpty ≠ .WhenEmptyBlock then (some .ErrUnsupported, s)
  else (none, { s with deadline := t })

/-- `safeRQ.Close` (safe.go lines 242-249): the `closeOnce` closes the
`closed` channel, then the call delegates to the buffer's `Close`. -/
def Close (s : safeRQ T) : Option GoError × safeRQ T :=
  let s1 := if s.closedCh then s else { s with closedCh := true }
  let p := unsafeRQ.Close s1.rq
  (p.1, { s1 with rq := p.2 })

/-- `safeRQ.Len` (safe.go): lock-guarded delegation. -/
def Len (s : safeRQ T) : Int := s.rq.Len

/-- `safeRQ.Cap` (safe.go): lock-guarded delegation. -/
def Cap (s : safeRQ T) : Int := s.rq.Cap

/-- `safeRQ.Peek` (safe.go lines 323-327): lock-guarded delegation. -/
def Peek (s : safeRQ T) :
    Except PanicKind (Option T × Int × Option GoError × safeRQ T) :=
  match s.rq.Peek with
  | .error p => .error p
  | .ok (e, n, err, rq') => .ok (e, n, err, { s with rq := rq' })

/-- `safeRQ.Push` (safe.go lines 269-292): `guardedPush` delegates to
the buffer (returning `(0, err)` on error, which the buffer's `Push`
already does); then, under the Block empty-policy, a `select` posts a
saturating availability notification.  Go's `select` chooses uniformly
among ready cases; this sequential embedding tries `closed` before the
`available` send — the theorems below use it only in states where the
claimed component of the outcome does not depend on that order. -/
def Push (s : safeRQ T) (elem : T) :
    Except PanicKind ((Int × Option GoError) × safeRQ T) :=
  match s.rq.Push elem with
  | .error p => .error p
  | .ok (n, err, rq') =>
    let s' := { s with rq := rq' }
    match s.whenEmpty with
    | .WhenEmptyError => .ok ((n, err), s')
    | .WhenEmptyBlock =>
      if s'.closedCh then .ok ((0, some .ErrClosed), s')
      else if s'.availableSet = false then
        .ok ((n, err), { s' with availableSet := true })
      else .ok ((n, err), s')

/-- The retried pop attempt of `safeRQ.Pop` (the `return s.Pop()` in
safe.go line 314), entered after the availability token has been
consumed.  In a sequential run no concurrent push can re-post the
token, so the `available` arm of the retried `select` is never ready
and the retried call is the whole of `Pop` specialized to
`availableSet = false`; this specialization is written out here so that
`Pop` itself is not recursive. -/
def popRetry (s : safeRQ T) :
    Except PanicKind (PopOutcome T × safeRQ T) :=
  match s.rq.Pop with
  | .error p => .error p
  | .ok (e, n, none, rq') => .ok (.ret e n none, { s with rq := rq' })
  | .ok (_, _, some _, rq') =>
    let s' := { s with rq := rq' }
    match s.whenEmpty with
    | .WhenEmptyError => .ok (.ret none 0 (some .ErrEmptyQueue), s')
    | .WhenEmptyBlock =>
      if s'.closedCh then .ok (.ret none 0 (some .ErrClosed), s')
      else if s'.deadlineFired then
        .ok (.ret none 0 (some .DeadlineExceeded), s')
      else .ok (.blocksForever, s')

/-- `safeRQ.Pop` (safe.go lines 299-321): `guardedPop` first; on
success return.  On any buffer error, the Error empty-policy returns
`ErrEmptyQueue` (replacing whatever error the buffer reported), and the
Block empty-policy enters a `select` over the closed signal, the
availability notification (consume and retry the whole pop, `popRetry`
above), and the deadline.  The `select` nondeterminism is
sequentialized with `closed` tried first, then `available`, then the
deadline; with none ready the call blocks forever. -/
def Pop (s : safeRQ T) :
    Except PanicKind (PopOutcome T × safeRQ T) :=
  match s.rq.Pop with
  | .error p => .error p
  | .ok (e, n, none, rq') => .ok (.ret e n none, { s with rq := rq' })
  | .ok (_, _, some _, rq') =>
    let s' := { s with rq := rq' }
    match s.whenEmpty with
    | .WhenEmptyError => .ok (.ret none 0 (some .ErrEmptyQueue), s')
    | .WhenEmptyBlock =>
      if s'.closedCh then .ok (.ret none 0 (some .ErrClosed), s')
      else if s'.availableSet = true then
        popRetry { s' with availableSet := false }
      else if s'.deadlineFired then
        .ok (.ret none 0 (some .DeadlineExceeded), s')
      else .ok (.blocksForever, s')

end safeRQ

/-- Sequences of core-buffer operations, for stating invariants over
every reachable state. -/
inductive Op (T : Type) where
  | push (x : T)
  | pop
  | peek
deriving DecidableEq, Repr

/-- Apply one operation to the core buffer, keeping the state the
operation left behind (operations that fail with an in-band error
return the unchanged state; a panic aborts the Go program, modelled by
keeping the pre-panic state — the invariant theorems show panics are
unreachable from a positive-capacity construction). -/
def applyOp {T : Type} (r : unsafeRQ T) (op : Op T) : unsafeRQ T :=
  match op with
  | .push x =>
    match r.Push x with
    | .ok (_, _, r') => r'
    | .error _ => r
  | .pop =>
    match r.Pop with
    | .ok (_, _, _, r') => r'
    | .error _ => r
  | .peek =>
    match r.Peek with
    | .ok (_, _, _, r') => r'
    | .error _ => r

/-- Run a sequence of operations left to right. -/
def runOps {T : Type} (r : unsafeRQ T) (ops : List (Op T)) : unsafeRQ T :=
  ops.foldl applyOp r

/-- Push a whole list, failing (`none`) if any push returns an error or
panics. -/
def pushList {T : Type} (r : unsafeRQ T) (xs : List T) : Option (unsafeRQ T) :=
  match xs with
  | [] => some r
  | x :: rest =>
    match r.Push x with
    | .ok (_, none, r') => pushList r' rest
    | _ => none

/-- Pop `n` times, collecting the returned elements in order; fails
(`none`) if any pop returns an error or panics. -/
def popList {T : Type} (r : unsafeRQ T) (n : Nat) :
    Option (List T × unsafeRQ T) :=
  match n with
  | 0 => some ([], r)
  | m + 1 =>
    match r.Pop with
    | .ok (some e, _, none, r') =>
      match popList r' m with
      | some (l, r'') => some (e :: l, r'')
      | none => none
    | _ => none

/-- Index well-formedness for a buffer of capacity `C`: the backing
store has length `C` and both indices lie in `[0, C)`. -/
def Inv {T : Type} (C : Nat) (r : unsafeRQ T) : Prop :=
  r.data.length = C ∧ r.start < C ∧ r.«end» < C

/-- Contents abstraction: buffer `r` represents the logical FIFO
sequence `l` (oldest first).  The occupied slots are
`(start + i) % capacity` for `i < l.length`; `end` is one past the
newest element modulo capacity, and `isFull` disambiguates
`start = end` between empty and full. -/
def Models {T : Type} (r : unsafeRQ T) (l : List T) : Prop :=
  r.closed = false ∧ 0 < r.data.length ∧ r.start < r.data.length ∧
  l.length ≤ r.data.length ∧ (r.isFull = true ↔ l.length = r.data.length) ∧
  r.«end» = (r.start + l.length) % r.data.length ∧
  ∀ i, i < l.length → r.data[(r.start + i) % r.data.length]? = l[i]?

/-- The state a successful push leaves behind (the assignments of
safe.go lines 398-400). -/
def pushedState {T : Type} (r : unsafeRQ T) (x : T) : unsafeRQ T :=
  { r with data := r.data.set r.«end» x, «end» := (r.«end» + 1) % r.data.length, isFull := decide ((r.«end» + 1) % r.data.length = r.start) }

/-- The state a successful pop leaves behind (the assignments of
safe.go lines 415-416). -/
def poppedState {T : Type} (r : unsafeRQ T) : unsafeRQ T :=
  { r with start := (r.start + 1) % r.data.length, isFull := false }

/-! ### Concrete states and scenarios used by the theorems -/

/-- A fresh capacity-10 buffer under the Error full-policy. -/
def q10E : unsafeRQ Int := (newUnsafe Int 10 .WhenFullError false).1

/-- Push 0..7, pop 5 times, push 100 and 101: the resulting state has
`start = 5`, `end = 0` (the end index has wrapped), holding the five
elements 5,6,7,100,101. -/
def wrapState : Option (unsafeRQ Int) :=
  (pushList q10E [0, 1, 2, 3, 4, 5, 6, 7]).bind fun r1 =>
  (popList r1 5).bind fun p =>
  pushList p.2 [100, 101]

/-- A fresh capacity-3 buffer under the Overwrite full-policy, after
pushing the four elements 1,2,3,4 (one more than capacity). -/
def overwriteState : Option (unsafeRQ Int) :=
  pushList ((newUnsafe Int 3 .WhenFullOverwrite false).1) [1, 2, 3, 4]

/-- The spec's concrete scenario: capacity 10, Error/Error policy; push
0..7, pop 5 times (collecting the popped prefix), push 100..106, then
drain all 10; returns the two collected pop sequences. -/
def fifoScenario : Option (List Int × List Int) :=
  (pushList q10E [0, 1, 2, 3, 4, 5, 6, 7]).bind fun r1 =>
  (popList r1 5).bind fun p =>
  (pushList p.2 [100, 101, 102, 103, 104, 105, 106]).bind fun r3 =>
  (popList r3 10).map fun q => (p.1, q.1)

/-- The capacity-0 buffer the constructor happily returns. -/
def q0 : unsafeRQ Int := (newUnsafe Int 0 .WhenFullError false).1

/-- A capacity-1 Error-policy buffer holding one element (full). -/
def fullOne : unsafeRQ Int :=
  (pushList (newUnsafe Int 1 .WhenFullError false).1 [9]).getD
    (newUnsafe Int 1 .WhenFullError false).1

/-- A capacity-10 buffer holding the single element 7. -/
def oneElem : unsafeRQ Int :=
  (pushList q10E [7]).getD q10E

/-- A closed core buffer. -/
def closedCore : unsafeRQ Int :=
  (unsafeRQ.Close (newUnsafe Int 1 .WhenFullError false).1).2

/-- A closed coordinator configured with the Error empty-policy. -/
def closedErrCoordinator : safeRQ Int :=
  (safeRQ.Close (NewSafe Int 1 .WhenFullError .WhenEmptyError false).1).2

/-- A closed coordinator configured with the Block empty-policy. -/
def closedBlockCoordinator : safeRQ Int :=
  (safeRQ.Close (NewSafe Int 1 .WhenFullError .WhenEmptyBlock false).1).2

/-! ### C1, C2: length formula and Overwrite policy (code bugs) -/

/-- C1: the claim says `len()` equals `(end - start) mod capacity` and
never exceeds capacity, but the source computes `len(data) - res` for
negative `res = end - start` instead of `len(data) + res`.  On the
reachable state with capacity 10, `start = 5`, `end = 0` (push 0..7,
pop five, push two more), `Len` returns 15, which exceeds the capacity
10, while the buffer holds exactly 5 elements (five further pops
succeed, a sixth fails) and the claimed formula gives 5. -/
theorem len_wraparound_exceeds_capacity :
    (wrapState.map fun r => (r.start, r.«end»)) = some (5, 0) ∧
    (wrapState.map unsafeRQ.Len) = some 15 ∧
    (wrapState.map unsafeRQ.Cap) = some 10 ∧
    ((wrapState.bind fun r => popList r 5).map Prod.fst) =
      some [5, 6, 7, 100, 101] ∧
    (wrapState.bind fun r => popList r 6) = none ∧
    (wrapState.map fun r =>
      ((r.«end» : Int) - (r.start : Int)) % (r.data.length : Int)) = some 5 ∧
    ¬ ((15 : Int) ≤ 10) := by
  decide

/-- C2: the claim says that under the Overwrite policy pushing
capacity+K elements and draining yields the last `capacity` elements
oldest-first.  The source's overwriting push never advances `start`:
after pushing 1,2,3,4 into a capacity-3 Overwrite buffer the backing
store is `[4,2,3]` (the oldest slot was overwritten) but `start = 0`,
`end = 1`, so the queue reports length 1 and draining yields only `[4]`
— a second pop fails — instead of the claimed `[2,3,4]`. -/
theorem overwrite_push_drops_surviving_elements :
    (overwriteState.map fun r => (r.data, r.start, r.«end», r.isFull)) =
      some ([4, 2, 3], 0, 1, false) ∧
    (overwriteState.map unsafeRQ.Len) = some 1 ∧
    ((overwriteState.bind fun r => popList r 1).map Prod.fst) = some [4] ∧
    (overwriteState.bind fun r => popList r 2) = none ∧
    ([4] : List Int) ≠ [2, 3, 4] := by
  decide

/-! ### C4: behaviour after close (corrected) -/

/-- C4 counterexample: popping a closed coordinator configured with the
Error empty-policy does not propagate the buffer's `Closed` error — the
coordinator's pop replaces every buffer error with `EmptyQueue`
(safe.go lines 299-321), so the call fails with `ErrEmptyQueue`. -/
theorem closed_pop_error_policy_returns_empty :
    safeRQ.Pop closedErrCoordinator =
      .ok (.ret none 0 (some .ErrEmptyQueue), closedErrCoordinator) ∧
    GoError.ErrEmptyQueue ≠ GoError.ErrClosed := by
  constructor
  · rfl
  · decide

/-! ### C10: capacity zero (corrected) -/

/-- C10 counterexample: the push on a capacity-0 buffer does panic, but
not with a modulo-by-zero: the slice store `r.data[r.end]` is evaluated
before the modulo `(r.end+1) % len(r.data)`, so the panic raised is an
index-out-of-range. -/
theorem capacity_zero_push_not_modByZero :
    unsafeRQ.Push q0 42 ≠ .error .modByZero := by
  decide

/-- C10 amended: construction with capacity 0 succeeds (no validation in
`newUnsafe`), and any subsequent push panics with an index-out-of-range
at the store `r.data[r.end]` instead of returning an error; the
degenerate capacity-0 case is reachable and unguarded at the public
interface. -/
theorem capacity_zero_push_panics :
    (newUnsafe Int 0 .WhenFullError false).2 = none ∧
    unsafeRQ.Push q0 42 = .error .indexOutOfRange := by
  decide

/-! ### C6: empty-buffer errors and peek (corrected) -/

/-- C6 counterexample: on a buffer holding the single element 7, peek
returns length 1 (the current length) while pop returns length 0 (the
length after removal) — so peek does not return "the same length that
pop would return", refuting that part of the claim; the element
returned is the same. -/
theorem peek_pop_length_differ :
    (oneElem.Peek.toOption.map fun p => p.2.1) = some 1 ∧
    (oneElem.Pop.toOption.map fun p => p.2.1) = some 0 ∧
    (oneElem.Peek.toOption.map fun p => p.1) =
      (oneElem.Pop.toOption.map fun p => p.1) ∧
    (1 : Int) ≠ 0 := by
  decide

/-! ### C5: Error-policy push on a full buffer -/

/-- C5: under the Error full-policy, pushing onto a full (non-closed)
buffer returns the `FullQueue` error and the returned state is the
argument state itself — backing store, `start`, `end` and `isFull` all
unchanged, the rejected element not stored. -/
theorem push_full_error_policy_rejects_unchanged (r : unsafeRQ Int) (x : Int)
    (hc : r.closed = false) (hf : r.isFull = true)
    (hw : r.whenFull = .WhenFullError) :
    r.Push x = .ok (0, some .ErrFullQueue, r) := by
  simp [unsafeRQ.Push, hc, hf, hw]

/-- C5 witness: a concrete full capacity-1 buffer rejects a push
unchanged. -/
theorem push_full_error_policy_rejects_unchanged_witness :
    fullOne.closed = false ∧ fullOne.isFull = true ∧
    fullOne.Push 5 = .ok (0, some .ErrFullQueue, fullOne) :=
  ⟨by decide, by decide,
   push_full_error_policy_rejects_unchanged fullOne 5 (by decide) (by decide)
     (by decide)⟩

/-! ### C9: SetPopDeadline policy check -/

/-- C9: `SetPopDeadline` fails with `Unsupported` on the core buffer
always, and on the coordinator exactly when the empty-policy is not
`BlockUntilAvailable`; on failure the state is returned unchanged, and
on a blocking coordinator the call succeeds, replacing the armed
deadline. -/
theorem setPopDeadline_unsupported_iff_not_block (r : unsafeRQ Int)
    (s : safeRQ Int) (t u v : Int) :
    r.SetPopDeadline t = (some .ErrUnsupported, r) ∧
    (s.whenEmpty = .WhenEmptyError →
      s.SetPopDeadline u = (some .ErrUnsupported, s)) ∧
    (s.whenEmpty = .WhenEmptyBlock →
      s.SetPopDeadline v = (none, { s with deadline := v })) := by
  refine ⟨rfl, fun h => ?_, fun h => ?_⟩ <;> simp [safeRQ.SetPopDeadline, h]

/-- C9 witness: concrete coordinators of both policies. -/
theorem setPopDeadline_unsupported_iff_not_block_witness :
    ((NewSafe Int 2 .WhenFullError .WhenEmptyError false).1).SetPopDeadline 3 =
      (some .ErrUnsupported, (NewSafe Int 2 .WhenFullError .WhenEmptyError false).1) ∧
    ((NewSafe Int 2 .WhenFullError .WhenEmptyBlock false).1).SetPopDeadline 3 =
      (none, { (NewSafe Int 2 .WhenFullError .WhenEmptyBlock false).1 with deadline := 3 }) :=
  ⟨(setPopDeadline_unsupported_iff_not_block
      (newUnsafe Int 2 .WhenFullError false).1
      (NewSafe Int 2 .WhenFullError .WhenEmptyError false).1 0 3 0).2.1 rfl,
   (setPopDeadline_unsupported_iff_not_block
      (newUnsafe Int 2 .WhenFullError false).1
      (NewSafe Int 2 .WhenFullError .WhenEmptyBlock false).1 0 0 3).2.2 rfl⟩

/-! ### C7: Close semantics -/

/-- `unsafeRQ.Close` never returns an error. -/
theorem Close_fst {T : Type} (r : unsafeRQ T) : (unsafeRQ.Close r).1 = none := by
  unfold unsafeRQ.Close; split <;> rfl

/-- `unsafeRQ.Close` on an already-closed buffer is a successful
no-op. -/
theorem Close_of_closed {T : Type} (r : unsafeRQ T) (h : r.closed = true) :
    unsafeRQ.Close r = (none, r) := by
  unfold unsafeRQ.Close; simp [h]

/-- After `unsafeRQ.Close`, the buffer is closed. -/
theorem Close_sets_closed {T : Type} (r : unsafeRQ T) :
    (unsafeRQ.Close r).2.closed = true := by
  unfold unsafeRQ.Close; split
  · assumption
  · rfl

/-- `safeRQ.Close` never returns an error. -/
theorem safeClose_fst {T : Type} (s : safeRQ T) : (safeRQ.Close s).1 = none := by
  simp [safeRQ.Close, Close_fst]

/-- After `safeRQ.Close`, the closed channel is closed. -/
theorem safeClose_closedCh {T : Type} (s : safeRQ T) :
    (safeRQ.Close s).2.closedCh = true := by
  unfold safeRQ.Close
  split <;> simp_all

/-- After `safeRQ.Close`, the underlying buffer is closed. -/
theorem safeClose_rq_closed {T : Type} (s : safeRQ T) :
    (safeRQ.Close s).2.rq.closed = true := by
  simp [safeRQ.Close, Close_sets_closed]

/-- `safeRQ.Close` on a fully closed coordinator is a successful
no-op. -/
theorem safeClose_of_closed {T : Type} (s : safeRQ T)
    (h1 : s.closedCh = true) (h2 : s.rq.closed = true) :
    safeRQ.Close s = (none, s) := by
  obtain ⟨rq, cch, we, av, dl, df⟩ := s
  simp only at h1 h2
  subst h1
  simp [safeRQ.Close, Close_of_closed _ h2]

/-- `safeRQ.Close` is idempotent. -/
theorem safeClose_idem {T : Type} (s : safeRQ T) :
    safeRQ.Close (safeRQ.Close s).2 = (none, (safeRQ.Close s).2) :=
  safeClose_of_closed _ (safeClose_closedCh s) (safeClose_rq_closed s)

/-- C7: `close()` never returns an error and is idempotent.  On a
not-yet-closed core buffer the first call sets `closed`, invokes the
optional finalizer exactly once with the final raw state, releases the
backing store, and a repeated call is a successful no-op that does not
invoke the finalizer again; the coordinator's close likewise always
succeeds and is idempotent. -/
theorem close_idempotent_finalizer_once (r : unsafeRQ Int) (s : safeRQ Int)
    (hr : r.closed = false) :
    (r.Close.1 = none ∧
     r.Close.2.closed = true ∧
     r.Close.2.data = [] ∧
     r.Close.2.finalizerCalls =
       r.finalizerCalls + (if r.hasOnClose then 1 else 0) ∧
     (r.hasOnClose = true →
       r.Close.2.finalizerArgs = some (r.data, r.start, r.«end», r.isFull)) ∧
     r.Close.2.Close = (none, r.Close.2)) ∧
    ((safeRQ.Close s).1 = none ∧
     safeRQ.Close (safeRQ.Close s).2 = (none, (safeRQ.Close s).2)) := by
  refine ⟨⟨Close_fst r, ?_, ?_, ?_, fun h => ?_, ?_⟩,
    safeClose_fst s, safeClose_idem s⟩
  · simp [unsafeRQ.Close, hr]
  · simp [unsafeRQ.Close, hr]
  · simp [unsafeRQ.Close, hr]
  · simp [unsafeRQ.Close, hr, h]
  · exact Close_of_closed _ (Close_sets_closed r)

/-- C7 witness: a fresh capacity-2 buffer with a finalizer attached,
and a fresh blocking coordinator. -/
theorem close_idempotent_finalizer_once_witness :
    ((newUnsafe Int 2 .WhenFullError true).1.Close.1 = none ∧
     (newUnsafe Int 2 .WhenFullError true).1.Close.2.finalizerCalls = 0 + 1 ∧
     (newUnsafe Int 2 .WhenFullError true).1.Close.2.finalizerArgs =
       some ([0, 0], 0, 0, false)) ∧
    (safeRQ.Close (NewSafe Int 2 .WhenFullError .WhenEmptyBlock false).1).1 = none := by
  have h := close_idempotent_finalizer_once
    (newUnsafe Int 2 .WhenFullError true).1
    (NewSafe Int 2 .WhenFullError .WhenEmptyBlock false).1 (by decide)
  refine ⟨⟨h.1.1, ?_, ?_⟩, h.2.1⟩
  · have := h.1.2.2.2.1
    simpa using this
  · have := h.1.2.2.2.2.1 (by decide)
    simpa using this

/-! ### C4 amended: behaviour after close -/

/-- C4 amended: after close, every core-buffer operation fails with
`Closed` (push, pop, peek) while `len`/`cap` return 0; through the
coordinator, push and peek fail with `Closed` and `len`/`cap` return 0
under both empty-policies, and pop fails with `Closed` under
`BlockUntilAvailable` (no availability token pending, deadline not
fired), but under `ErrorOnEmpty` the buffer's `Closed` error is
replaced by `EmptyQueue`. -/
theorem closed_operations_fail (r : unsafeRQ Int) (s : safeRQ Int) (x y : Int)
    (hr : r.closed = true) (hs : s.rq.closed = true) (hch : s.closedCh = true)
    (hav : s.availableSet = false) (hdl : s.deadlineFired = false) :
    r.Push x = .ok (0, some .ErrClosed, r) ∧
    r.Pop = .ok (none, 0, some .ErrClosed, r) ∧
    r.Peek = .ok (none, 0, some .ErrClosed, r) ∧
    r.Len = 0 ∧ r.Cap = 0 ∧
    safeRQ.Push s y = .ok ((0, some .ErrClosed), s) ∧
    safeRQ.Peek s = .ok (none, 0, some .ErrClosed, s) ∧
    (s.whenEmpty = .WhenEmptyError →
      safeRQ.Pop s = .ok (.ret none 0 (some .ErrEmptyQueue), s)) ∧
    (s.whenEmpty = .WhenEmptyBlock →
      safeRQ.Pop s = .ok (.ret none 0 (some .ErrClosed), s)) ∧
    safeRQ.Len s = 0 ∧ safeRQ.Cap s = 0 := by
  obtain ⟨srq, scch, swe, sav, sdl, sdf⟩ := s
  simp only at hs hch hav hdl
  subst hch hav hdl
  refine ⟨?_, ?_, ?_, ?_, ?_, ?_, ?_, fun h => ?_, fun h => ?_, ?_, ?_⟩
  · simp [unsafeRQ.Push, hr]
  · simp [unsafeRQ.Pop, hr]
  · simp [unsafeRQ.Peek, hr]
  · simp [unsafeRQ.Len, hr]
  · simp [unsafeRQ.Cap, hr]
  · cases swe <;> simp [safeRQ.Push, unsafeRQ.Push, hs]
  · simp [safeRQ.Peek, unsafeRQ.Peek, hs]
  · simp only at h
    subst h
    simp [safeRQ.Pop, unsafeRQ.Pop, hs]
  · simp only at h
    subst h
    simp [safeRQ.Pop, unsafeRQ.Pop, hs]
  · simp [safeRQ.Len, unsafeRQ.Len, hs]
  · simp [safeRQ.Cap, unsafeRQ.Cap, hs]

/-- C4 witness: concrete closed core buffer and closed blocking
coordinator. -/
theorem closed_operations_fail_witness :
    closedCore.Push 5 = .ok (0, some .ErrClosed, closedCore) ∧
    safeRQ.Pop closedBlockCoordinator =
      .ok (.ret none 0 (some .ErrClosed), closedBlockCoordinator) := by
  have h := closed_operations_fail closedCore closedBlockCoordinator 5 6
    (by decide) (by decide) (by decide) (by decide) (by decide)
  exact ⟨h.1, h.2.2.2.2.2.2.2.2.1 (by decide)⟩

/-! ### C6 amended: empty errors and peek as a pure snapshot -/

/-- C6 amended: popping or peeking an empty non-closed buffer fails
with `EmptyQueue` and returns the state unchanged; on a non-empty
buffer peek returns the same element that pop would return, together
with the length as reported before removal (pop instead reports the
length after removal), and peek mutates nothing. -/
theorem empty_error_and_peek_snapshot :
    (∀ (r : unsafeRQ Int), r.closed = false → r.isFull = false →
      r.start = r.«end» →
      r.Pop = .ok (none, 0, some .ErrEmptyQueue, r) ∧
      r.Peek = .ok (none, 0, some .ErrEmptyQueue, r)) ∧
    (∀ (r : unsafeRQ Int), r.closed = false →
      (r.isFull = true ∨ r.start ≠ r.«end») → r.start < r.data.length →
      ∃ e n r', r.Pop = .ok (some e, n, none, r') ∧
        r.Peek = .ok (some e, r.Len, none, r)) := by
  constructor
  · intro r hc hf he
    constructor <;> simp [unsafeRQ.Pop, unsafeRQ.Peek, hc, hf, he]
  · intro r hc hne hlt
    have hnempty : ¬(r.isFull = false ∧ r.start = r.«end») := by
      rcases hne with h | h
      · simp [h]
      · simp [h]
    obtain ⟨v, hv⟩ : ∃ v, r.data[r.start]? = some v :=
      ⟨r.data[r.start], List.getElem?_eq_getElem hlt⟩
    have hlen : ¬ r.data.length = 0 := by omega
    refine ⟨v,
      unsafeRQ.Len
        { r with start := (r.start + 1) % r.data.length, isFull := false },
      { r with start := (r.start + 1) % r.data.length, isFull := false },
      ?_, ?_⟩ <;>
      simp [unsafeRQ.Pop, unsafeRQ.Peek, hc, hnempty, hv, hlen]

/-- C6 witness: the empty fresh buffer and the one-element buffer. -/
theorem empty_error_and_peek_snapshot_witness :
    q10E.Pop = .ok (none, 0, some .ErrEmptyQueue, q10E) ∧
    ∃ e n r', oneElem.Pop = .ok (some e, n, none, r') ∧
      oneElem.Peek = .ok (some e, oneElem.Len, none, oneElem) :=
  ⟨(empty_error_and_peek_snapshot.1 q10E (by decide) (by decide) (by decide)).1,
   empty_error_and_peek_snapshot.2 oneElem (by decide) (by decide) (by decide)⟩

/-! ### Shape lemmas for successful and failing operations -/

/-- A successful push (no error, no panic) writes the element at `end`,
advances `end` modulo capacity and recomputes `isFull`. -/
theorem Push_ok_fields {T : Type} {r r' : unsafeRQ T} {x : T} {n : Int}
    (h : r.Push x = .ok (n, none, r')) :
    r.closed = false ∧ r.«end» < r.data.length ∧
    r' = { r with data := r.data.set r.«end» x,
                  «end» := (r.«end» + 1) % r.data.length,
                  isFull :=
                    decide ((r.«end» + 1) % r.data.length = r.start) } := by
  unfold unsafeRQ.Push at h
  split at h
  · simp at h
  · split at h
    · simp at h
    · split at h
      · split at h
        · simp at h
        · refine ⟨by simp_all, by assumption, ?_⟩
          simp only [Except.ok.injEq, Prod.mk.injEq] at h
          exact h.2.2.symm
      · simp at h

/-- A push that returns an in-band error leaves the state unchanged. -/
theorem Push_err_state {T : Type} {r r' : unsafeRQ T} {x : T} {n : Int}
    {e : GoError} (h : r.Push x = .ok (n, some e, r')) : r' = r := by
  unfold unsafeRQ.Push at h
  split at h
  · simp only [Except.ok.injEq, Prod.mk.injEq] at h
    exact h.2.2.symm
  · split at h
    · simp only [Except.ok.injEq, Prod.mk.injEq] at h
      exact h.2.2.symm
    · split at h
      · split at h
        · simp at h
        · simp at h
      · simp at h

/-- A pop with no in-band error pops the head slot, advances `start`
modulo capacity, and forces `isFull` off. -/
theorem Pop_ok_fields {T : Type} {r r' : unsafeRQ T} {eo : Option T} {n : Int}
    (h : r.Pop = .ok (eo, n, none, r')) :
    r.closed = false ∧ ¬(r.isFull = false ∧ r.start = r.«end») ∧
    r.data[r.start]? = eo ∧ r.data.length ≠ 0 ∧
    r' = { r with start := (r.start + 1) % r.data.length,
                  isFull := false } := by
  unfold unsafeRQ.Pop at h
  split at h
  · simp at h
  · split at h
    · simp at h
    · split at h
      · simp at h
      · split at h
        · simp at h
        · simp only [Except.ok.injEq, Prod.mk.injEq] at h
          obtain ⟨h1, -, -, h4⟩ := h
          refine ⟨by simp_all, by assumption, ?_, by assumption, h4.symm⟩
          rw [← h1]
          assumption

/-- A pop that returns an in-band error leaves the state unchanged. -/
theorem Pop_err_state {T : Type} {r r' : unsafeRQ T} {eo : Option T} {n : Int}
    {e : GoError} (h : r.Pop = .ok (eo, n, some e, r')) : r' = r := by
  unfold unsafeRQ.Pop at h
  split at h
  · simp only [Except.ok.injEq, Prod.mk.injEq] at h
    exact h.2.2.2.symm
  · split at h
    · simp only [Except.ok.injEq, Prod.mk.injEq] at h
      exact h.2.2.2.symm
    · split at h
      · simp at h
      · split at h
        · simp at h
        · simp at h

/-- Peek never returns a state different from its argument. -/
theorem Peek_ok_state {T : Type} {r r' : unsafeRQ T} {eo : Option T} {n : Int}
    {err : Option GoError} (h : r.Peek = .ok (eo, n, err, r')) : r' = r := by
  unfold unsafeRQ.Peek at h
  split at h
  · simp only [Except.ok.injEq, Prod.mk.injEq] at h
    exact h.2.2.2.symm
  · split at h
    · simp only [Except.ok.injEq, Prod.mk.injEq] at h
      exact h.2.2.2.symm
    · split at h
      · simp at h
      · simp only [Except.ok.injEq, Prod.mk.injEq] at h
        exact h.2.2.2.symm

/-- Peek never changes the state. -/
theorem applyOp_peek {T : Type} (r : unsafeRQ T) : applyOp r Op.peek = r := by
  simp only [applyOp]
  cases hq : r.Peek with
  | error p => rfl
  | ok t =>
    obtain ⟨eo, n, err, r'⟩ := t
    exact Peek_ok_state hq

/-! ### C8: index bounds and the isFull discipline -/

/-- Every single operation preserves the index invariant. -/
theorem applyOp_inv {T : Type} {C : Nat} {r : unsafeRQ T}
    (hI : Inv C r) (op : Op T) : Inv C (applyOp r op) := by
  obtain ⟨hlen, hs, he⟩ := hI
  cases op with
  | push x =>
    simp only [applyOp]
    cases hp : r.Push x with
    | error p => exact ⟨hlen, hs, he⟩
    | ok t =>
      obtain ⟨n, err, r'⟩ := t
      cases err with
      | none =>
        obtain ⟨-, hend, hr'⟩ := Push_ok_fields hp
        subst hr'
        refine ⟨by simp [hlen], hs, ?_⟩
        simpa [hlen] using Nat.mod_lt (r.«end» + 1) (y := r.data.length)
          (by omega)
      | some e =>
        rw [Push_err_state hp]
        exact ⟨hlen, hs, he⟩
  | pop =>
    simp only [applyOp]
    cases hp : r.Pop with
    | error p => exact ⟨hlen, hs, he⟩
    | ok t =>
      obtain ⟨eo, n, err, r'⟩ := t
      cases err with
      | none =>
        obtain ⟨-, -, -, hne, hr'⟩ := Pop_ok_fields hp
        subst hr'
        refine ⟨hlen, ?_, he⟩
        simpa [hlen] using Nat.mod_lt (r.start + 1) (y := r.data.length)
          (by omega)
      | some e =>
        rw [Pop_err_state hp]
        exact ⟨hlen, hs, he⟩
  | peek =>
    rw [applyOp_peek]
    exact ⟨hlen, hs, he⟩

/-- The index invariant holds along any operation sequence. -/
theorem runOps_inv {T : Type} {C : Nat} (ops : List (Op T))
    {r : unsafeRQ T} (hI : Inv C r) : Inv C (runOps r ops) := by
  induction ops generalizing r with
  | nil => exact hI
  | cons op rest ih => exact ih (applyOp_inv hI op)

/-- C8: for every capacity `C ≥ 1`, either full-policy, and every
sequence of push/pop/peek operations from a fresh buffer, `start` and
`end` stay inside `[0, C)`; moreover any successful push from the
reached state yields `isFull = (end = start)` on the new state, and any
successful pop yields `isFull = false`, with the indices still in
range. -/
theorem index_bounds_and_isFull_discipline (C : Nat) (wFull : WhenFull)
    (ops : List (Op Int)) (hC : 1 ≤ C) :
    (runOps (newUnsafe Int C wFull false).1 ops).start < C ∧
    (runOps (newUnsafe Int C wFull false).1 ops).«end» < C ∧
    (∀ (x n : Int) (q : unsafeRQ Int),
      (runOps (newUnsafe Int C wFull false).1 ops).Push x = .ok (n, none, q) →
      q.start < C ∧ q.«end» < C ∧
        q.isFull = decide (q.«end» = q.start)) ∧
    (∀ (e n : Int) (q : unsafeRQ Int),
      (runOps (newUnsafe Int C wFull false).1 ops).Pop =
        .ok (some e, n, none, q) →
      q.start < C ∧ q.«end» < C ∧ q.isFull = false) := by
  have hI0 : Inv C (newUnsafe Int C wFull false).1 := by
    refine ⟨by simp [newUnsafe], by simpa [newUnsafe] using hC,
      by simpa [newUnsafe] using hC⟩
  have hI := runOps_inv ops hI0
  obtain ⟨hlen, hs, he⟩ := hI
  refine ⟨hs, he, fun x n q hp => ?_, fun e n q hp => ?_⟩
  · obtain ⟨-, hend, hr'⟩ := Push_ok_fields hp
    subst hr'
    refine ⟨hs, ?_, rfl⟩
    simpa [hlen] using
      Nat.mod_lt ((runOps (newUnsafe Int C wFull false).1 ops).«end» + 1)
        (by omega)
  · obtain ⟨-, -, -, hne, hr'⟩ := Pop_ok_fields hp
    subst hr'
    refine ⟨?_, he, rfl⟩
    simpa [hlen] using
      Nat.mod_lt ((runOps (newUnsafe Int C wFull false).1 ops).start + 1)
        (by omega)

/-- C8 witness: a concrete capacity-2 run, including a successful push
from the reached state. -/
theorem index_bounds_and_isFull_discipline_witness :
    (runOps (newUnsafe Int 2 .WhenFullError false).1
      [Op.push 3, Op.push 4, Op.pop]).start < 2 ∧
    (runOps (newUnsafe Int 2 .WhenFullError false).1
      [Op.push 3, Op.push 4, Op.pop]).«end» < 2 := by
  have h := index_bounds_and_isFull_discipline 2 .WhenFullError
    [Op.push 3, Op.push 4, Op.pop] (by decide)
  exact ⟨h.1, h.2.1⟩

/-! ### C3: FIFO round trip via the contents abstraction -/

/-- Reduce `a % c` when `a < 2c`: either `a` itself or `a - c`.  All
index arithmetic in the ring buffer stays below twice the capacity, so
this single case split eliminates every modulus. -/
theorem mod_two_intervals {a c : Nat} (_hc : 0 < c) (h : a < 2 * c) :
    a % c = if a < c then a else a - c := by
  split
  · exact Nat.mod_eq_of_lt ‹_›
  · rw [Nat.mod_eq_sub_mod (by omega)]
    exact Nat.mod_eq_of_lt (by omega)

/-- Pushing onto a non-full modelled buffer succeeds and appends the
element to the modelled contents. -/
theorem Push_models {T : Type} {r : unsafeRQ T} {l : List T} (x : T)
    (hm : Models r l) (hlt : l.length < r.data.length) :
    r.Push x = .ok ((pushedState r x).Len, none, pushedState r x) ∧
      Models (pushedState r x) (l ++ [x]) := by
  obtain ⟨hc, hcap, hs, hle, hfull, hend, hcont⟩ := hm
  have hnf : r.isFull = false := by
    cases hf : r.isFull
    · rfl
    · exact absurd (hfull.mp hf) (by omega)
  have hendlt : r.«end» < r.data.length := hend ▸ Nat.mod_lt _ hcap
  have hlen0 : ¬ r.data.length = 0 := by omega
  constructor
  · unfold unsafeRQ.Push pushedState
    simp [hc, hnf, hendlt, hlen0]
  · unfold pushedState
    have he1 : (r.«end» + 1) % r.data.length =
        (r.start + (l.length + 1)) % r.data.length := by
      rw [hend, Nat.mod_add_mod, Nat.add_assoc]
    refine ⟨hc, by simpa using hcap, by simpa using hs, ?_, ?_, ?_, ?_⟩
    · simp only [List.length_append, List.length_set, List.length_singleton]
      omega
    · simp only [decide_eq_true_eq, List.length_append, List.length_set,
        List.length_singleton]
      rw [he1]
      have hm2 := mod_two_intervals (a := r.start + (l.length + 1)) hcap
        (by omega)
      rw [hm2]
      split <;> constructor <;> intro <;> omega
    · simpa using he1
    · intro i hi
      simp only [List.length_append, List.length_singleton] at hi
      simp only [List.length_set]
      rcases Nat.lt_or_ge i l.length with hiL | hiL
      · have hne : r.«end» ≠ (r.start + i) % r.data.length := by
          rw [hend]
          have h1 := mod_two_intervals (a := r.start + i) hcap (by omega)
          have h2 := mod_two_intervals (a := r.start + l.length) hcap
            (by omega)
          rw [h1, h2]
          split <;> split <;> omega
        rw [List.getElem?_set_ne hne, List.getElem?_append, if_pos hiL]
        exact hcont i hiL
      · have hiL' : i = l.length := by omega
        subst hiL'
        have hee : (r.start + l.length) % r.data.length = r.«end» := hend.symm
        rw [hee, List.getElem?_set_eq_of_lt _ hendlt,
          List.getElem?_concat_length]

/-- Popping a non-empty modelled buffer succeeds, returns the oldest
element, and the new state models the tail. -/
theorem Pop_models {T : Type} {r : unsafeRQ T} {x : T} {l : List T}
    (hm : Models r (x :: l)) :
    r.Pop = .ok (some x, (poppedState r).Len, none, poppedState r) ∧
      Models (poppedState r) l := by
  obtain ⟨hc, hcap, hs, hle, hfull, hend, hcont⟩ := hm
  simp only [List.length_cons] at hle hfull hend
  have hlen0 : ¬ r.data.length = 0 := by omega
  have hhead : r.data[r.start]? = some x := by
    have := hcont 0 (by simp)
    simpa [Nat.mod_eq_of_lt hs] using this
  have hnempty : ¬(r.isFull = false ∧ r.start = r.«end») := by
    rintro ⟨hf, hse⟩
    have hlt : l.length + 1 < r.data.length := by
      rcases Nat.lt_or_ge (l.length + 1) r.data.length with h | h
      · exact h
      · have : l.length + 1 = r.data.length := by omega
        exact absurd (hfull.mpr this) (by simp [hf])
    have hm2 := mod_two_intervals (a := r.start + (l.length + 1)) hcap
      (by omega)
    rw [hend, hm2] at hse
    split at hse <;> omega
  constructor
  · unfold unsafeRQ.Pop poppedState
    simp [hc, hnempty, hhead, hlen0]
  · unfold poppedState
    have hs1 : (r.start + 1) % r.data.length < r.data.length :=
      Nat.mod_lt _ hcap
    refine ⟨hc, hcap, hs1, by simp; omega, ?_, ?_, ?_⟩
    · simp only [Bool.false_eq_true, false_iff]
      omega
    · rw [hend, Nat.mod_add_mod, Nat.add_assoc, Nat.add_comm 1 l.length]
    · intro i hi
      have : ((r.start + 1) % r.data.length + i) % r.data.length =
          (r.start + (i + 1)) % r.data.length := by
        rw [Nat.mod_add_mod, Nat.add_assoc, Nat.add_comm 1 i]
      rw [this]
      have := hcont (i + 1) (by simp; omega)
      simpa using this

/-- Pushing a whole list onto a modelled buffer with enough free room
succeeds and appends the list to the modelled contents. -/
theorem pushList_models {T : Type} (xs : List T) {r : unsafeRQ T}
    {l : List T} (hm : Models r l)
    (hroom : l.length + xs.length ≤ r.data.length) :
    ∃ r', pushList r xs = some r' ∧ Models r' (l ++ xs) := by
  induction xs generalizing r l with
  | nil => exact ⟨r, rfl, by simpa using hm⟩
  | cons x rest ih =>
    simp only [List.length_cons] at hroom
    obtain ⟨hp, hm'⟩ := Push_models x hm (by omega)
    have hcaseq : (pushedState r x).data.length = r.data.length := by
      simp [pushedState]
    obtain ⟨r'', hrest, hm''⟩ := ih hm' (by rw [hcaseq]; simp; omega)
    refine ⟨r'', ?_, by simpa using hm''⟩
    simp only [pushList, hp, hrest]

/-- Popping `xs.length` times from a buffer modelling `xs ++ ys`
succeeds, returns exactly `xs`, and leaves a buffer modelling `ys`. -/
theorem popList_models {T : Type} (xs : List T) {r : unsafeRQ T}
    (ys : List T) (hm : Models r (xs ++ ys)) :
    ∃ r', popList r xs.length = some (xs, r') ∧ Models r' ys := by
  induction xs generalizing r with
  | nil => exact ⟨r, rfl, by simpa using hm⟩
  | cons x rest ih =>
    obtain ⟨hp, hm'⟩ := Pop_models (by simpa using hm)
    obtain ⟨r'', hrest, hm''⟩ := ih hm'
    refine ⟨r'', ?_, hm''⟩
    simp only [List.length_cons, popList, hp, hrest]

/-- C3: strict FIFO.  From any empty, non-closed, well-indexed buffer
under the Error full-policy, pushing any `N ≤ capacity` elements
succeeds and then popping `N` times succeeds and returns exactly those
elements in push order; and the spec's concrete capacity-10 wrap-around
scenario drains as 5,6,7,100,101,102,103,104,105,106 after popping
0,1,2,3,4. -/
theorem fifo_round_trip :
    (∀ (T : Type) (r : unsafeRQ T) (xs : List T),
      r.closed = false → r.isFull = false → r.start = r.«end» →
      r.start < r.data.length → r.whenFull = .WhenFullError →
      xs.length ≤ r.data.length →
      ∃ r', pushList r xs = some r' ∧
        ∃ r'', popList r' xs.length = some (xs, r'')) ∧
    fifoScenario =
      some ([0, 1, 2, 3, 4], [5, 6, 7, 100, 101, 102, 103, 104, 105, 106]) := by
  constructor
  · intro T r xs hc hf hse hs hw hlen
    have hm : Models r [] := by
      refine ⟨hc, by omega, hs, by simp, ?_, ?_, ?_⟩
      · simp only [List.length_nil, hf]
        constructor
        · intro h
          exact absurd h (by simp)
        · intro h
          omega
      · simpa [Nat.mod_eq_of_lt hs] using hse.symm
      · intro i hi
        exact absurd hi (by simp)
    obtain ⟨r', hpush, hm'⟩ := pushList_models xs hm (by simpa using hlen)
    refine ⟨r', hpush, ?_⟩
    obtain ⟨r'', hpop, -⟩ := popList_models xs [] (by simpa using hm')
    exact ⟨r'', hpop⟩
  · decide

/-- C3 witness: a concrete capacity-3 buffer round-trips `[4, 5]`. -/
theorem fifo_round_trip_witness :
    ((pushList (newUnsafe Int 3 .WhenFullError false).1 [4, 5]).bind
      fun r' => (popList r' 2).map Prod.fst) = some [4, 5] := by
  obtain ⟨r', hpush, r'', hpop⟩ := fifo_round_trip.1 Int
    (newUnsafe Int 3 .WhenFullError false).1 [4, 5]
    rfl rfl rfl (by decide) rfl (by decide)
  have h2 : popList r' 2 = some ([4, 5], r'') := hpop
  rw [hpush]
  simp [h2]

end RingQueue
